import Mathlib

/-!
Verification of `TebOptimLocalPlannerServer` (file
`src/nav_ws/src/nav/teb_optim_local_planner/include/teb_optim_local_planner/TebOptimLocalPlannerServer.h`).

The repository ships only the declaration header of the server class; the
member-function bodies are not part of the source tree.  Where a body is
missing we embed the operation from the specification (`spec.md`) and the
doc comments of the header, marked `Modelled from the spec:`.  The two
inline bodies that do appear in the header (`cancel` at line 166 and the
two-argument `isGoalReached` at line 159) are embedded directly from the
source.

Geometry is embedded over `ℚ` where the operation only compares squared
distances, and over `ℝ` where Euclidean lengths, square roots or
arc-tangents are intrinsic to the operation.
-/

/-- A planar point (the (x, y) part of a pose), over `ℚ`. -/
abbrev QPt := ℚ × ℚ

/-- Squared Euclidean distance between two planar points. -/
def distSq (p q : QPt) : ℚ :=
  (p.1 - q.1) ^ 2 + (p.2 - q.2) ^ 2

/-- Modelled from the spec: `pruneGlobalPlan` (header lines 273-289).
"The pose of the robot is transformed into the frame of the global plan
...  If no valid transformation can be found, the method returns false.
The global plan is pruned until the distance to the robot is at least
`dist_behind_robot`.  If no pose within the specified threshold
`dist_behind_robot` can be found, nothing will be pruned and the method
returns false."  The robot pose is `none` when the transform fails; the
plan is scanned from the front and the poses before the first one lying
within the threshold are removed. -/
def pruneGlobalPlan (robotPose : Option QPt) (globalPlan : List QPt)
    (distBehindRobot : ℚ) : Bool × List QPt :=
  match robotPose with
  | none => (false, globalPlan)
  | some r =>
    let pruned := globalPlan.dropWhile (fun p => decide (distBehindRobot ^ 2 ≤ distSq p r))
    if pruned.isEmpty then (false, globalPlan) else (true, pruned)

/-- An obstacle together with its acquisition timestamp (the header keeps
the stamps in the parallel vector `obstacles_stamps_`, line 413). -/
structure TimedObstacle where
  x : ℚ
  y : ℚ
  stamp : ℚ
deriving DecidableEq

/-- Age of a timed obstacle at time `now`. -/
def obstacleAge (now : ℚ) (ob : TimedObstacle) : ℚ := now - ob.stamp

/-- Modelled from the spec: `clearOldObstacles` (header line 400).
"A separate maintenance step removes obstacles older than a configured
maximum age before each cycle's snapshot is handed to the optimizer."
Obstacles whose age exceeds `maxTimeForEvanescentObstacles` are removed
from the container. -/
def clearOldObstacles (now maxTimeForEvanescentObstacles : ℚ)
    (obstacles : List TimedObstacle) : List TimedObstacle :=
  obstacles.filter (fun ob => decide (obstacleAge now ob ≤ maxTimeForEvanescentObstacles))

/-- A cell of the occupancy grid used by the costmap-based obstacle update. -/
structure GridCell where
  x : ℚ
  y : ℚ
  occupied : Bool
deriving DecidableEq

/-- Modelled from the spec: `updateObstacleContainerWithCostmap`
(header lines 216-224).  "All occupied cells will be added as point
obstacles.  All previous obstacles are cleared."  The previous container
content is an argument only to exhibit the frame effect: it is discarded
(cleared) and the result is exactly the occupied cells within range,
turned into point obstacles stamped `now`. -/
def updateObstacleContainerWithCostmap (cells : List GridCell) (robot : QPt)
    (range : ℚ) (now : ℚ) (obstacles : List TimedObstacle) : List TimedObstacle :=
  let _cleared : List TimedObstacle := []
  _cleared ++
    (cells.filter (fun c => c.occupied && decide (distSq (c.x, c.y) robot ≤ range ^ 2))).map
      (fun c => ⟨c.x, c.y, now⟩)

/-- Modelled from the spec: `updateObstacleContainerWithCustomObstacles`
(header lines 234-239).  "All previous obstacles are NOT cleared.  Call
this method after other update methods."  The custom feed is appended to
the current container. -/
def updateObstacleContainerWithCustomObstacles (customObstacles : List TimedObstacle)
    (obstacles : List TimedObstacle) : List TimedObstacle :=
  obstacles ++ customObstacles

/-- The fixed MBF outcome vocabulary of the extended
`computeVelocityCommands`, as enumerated in the header doc comment
(lines 124-142). -/
inductive MbfOutcome
  | success
  | failure
  | canceled
  | noValidCmd
  | patExceeded
  | collision
  | oscillation
  | robotStuck
  | missedGoal
  | missedPath
  | blockedPath
  | invalidPath
  | tfError
  | notInitialized
  | invalidPlugin
  | internalError
deriving DecidableEq

/-- Numeric result codes of the outcome vocabulary, from the header doc
comment (lines 124-142). -/
def MbfOutcome.code : MbfOutcome → ℕ
  | .success => 0
  | .failure => 100
  | .canceled => 101
  | .noValidCmd => 102
  | .patExceeded => 103
  | .collision => 104
  | .oscillation => 105
  | .robotStuck => 106
  | .missedGoal => 107
  | .missedPath => 108
  | .blockedPath => 109
  | .invalidPath => 110
  | .tfError => 111
  | .notInitialized => 112
  | .invalidPlugin => 113
  | .internalError => 114

/-- The fixed code space of the extended `computeVelocityCommands`
(header lines 124-142). -/
def mbfCodeSpace : List ℕ :=
  [0, 100, 101, 102, 103, 104, 105, 106, 107, 108, 109, 110, 111, 112, 113, 114]

/-- Modelled from the spec: the extended (MBF API) `computeVelocityCommands`
(header lines 117-145).  "Calling control operations before initialization
is a programming error, surfaced as a dedicated outcome code rather than
undefined behavior."  When `initialized_` is false the dedicated
`NOT_INITIALIZED` code is returned; otherwise the rest of the control
cycle (abstracted here as `cycleOutcome`, itself drawn from the fixed
vocabulary) determines the result. -/
def computeVelocityCommandsMbf (initialized : Bool) (cycleOutcome : MbfOutcome) : MbfOutcome :=
  match initialized with
  | false => .notInitialized
  | true => cycleOutcome

/-- The server state touched by the claims about `cancel` and
`isGoalReached` (fields `initialized_`, line 454, and `goal_reached_`,
line 439). -/
structure ServerState where
  initialized : Bool
  goalReached : Bool
deriving DecidableEq

/-- From the source (header line 166): `bool cancel() { return false; };`.
The body reads and writes no member, so the state passes through
unchanged. -/
def cancel (s : ServerState) : Bool × ServerState := (false, s)

/-- Modelled from the spec: the zero-argument `isGoalReached` (header
lines 147-154); its body is not in the tree.  Per its doc comment "The
actual check is performed in computeVelocityCommands().  Only the status
flag is checked here." it returns the stored `goal_reached_` flag. -/
def isGoalReached (s : ServerState) : Bool := s.goalReached

/-- From the source (header line 159):
`bool isGoalReached(double xy_tolerance, double yaw_tolerance) { return isGoalReached(); };`
Both tolerance arguments are ignored. -/
def isGoalReachedWithTolerance (s : ServerState) (xyTolerance yawTolerance : ℝ) : Bool :=
  isGoalReached s

/-- A planar point over `ℝ`, for the operations whose semantics involve
Euclidean lengths. -/
abbrev RPt := ℝ × ℝ

/-- Euclidean distance between two planar points. -/
noncomputable def planDist (p q : RPt) : ℝ :=
  Real.sqrt ((q.1 - p.1) ^ 2 + (q.2 - p.2) ^ 2)

/-- Cumulative Euclidean length of a polyline. -/
noncomputable def cumLength : List RPt → ℝ
  | [] => 0
  | [_] => 0
  | p :: q :: rest => planDist p q + cumLength (q :: rest)

/-- Reprojection of a point into the control frame, modelled as a
translation (a rigid motion suffices for the length claims). -/
def shiftPt (off : RPt) (p : RPt) : RPt := (p.1 + off.1, p.2 + off.2)

/-- The greedy truncation of the plan tail: keep appending the next pose
while the cumulative length stays within `maxLen`.  `acc` is the length
accumulated so far and `prev` the last kept pose. -/
noncomputable def takeWithin (maxLen : ℝ) : ℝ → RPt → List RPt → List RPt
  | _, _, [] => []
  | acc, prev, q :: rest =>
    if acc + planDist prev q ≤ maxLen then
      q :: takeWithin maxLen (acc + planDist prev q) q rest
    else []

/-- Modelled from the spec: `transformGlobalPlan` (header lines 291-311).
"Reprojects the surviving plan into the control frame, truncating
cumulative length at max lookahead (values ≤ 0 disable the length cap)";
the header doc comment for `max_plan_length` reads "Specify maximum
length (cumulative Euclidean distances) of the transformed plan (if <=0:
disabled)". -/
noncomputable def transformGlobalPlan (off : RPt) (maxPlanLength : ℝ)
    (globalPlan : List RPt) : List RPt :=
  match globalPlan with
  | [] => []
  | p :: rest =>
    if maxPlanLength ≤ 0 then (p :: rest).map (shiftPt off)
    else (p :: takeWithin maxPlanLength 0 p rest).map (shiftPt off)

/-- Modelled from the spec: the derivation loop of
`updateViaPointsContainer` (header lines 242-248).  "Walks the
LocalPlanWindow in order, emitting a point whenever the accumulated
distance since the last emitted point reaches the configured minimum
separation."  `acc` is the distance accumulated since the last emitted
point and `prev` the previous plan pose. -/
noncomputable def deriveViaPoints (minSeparation : ℝ) : ℝ → RPt → List RPt → List RPt
  | _, _, [] => []
  | acc, prev, q :: rest =>
    if minSeparation ≤ acc + planDist prev q then q :: deriveViaPoints minSeparation 0 q rest
    else deriveViaPoints minSeparation (acc + planDist prev q) q rest

/-- Modelled from the spec: `updateViaPointsContainer` (header lines
242-248) together with the feed-precedence rule for
`custom_via_points_active_` (line 433).  "All previous via-points will be
cleared" (the previous container is discarded); "If an external via-point
feed is marked active, its content is used verbatim instead (feed
precedence), and derived via-points are not computed." -/
noncomputable def updateViaPointsContainer (customViaPointsActive : Bool)
    (customViaPoints : List RPt) (transformedPlan : List RPt) (minSeparation : ℝ)
    (previousViaPoints : List RPt) : List RPt :=
  match customViaPointsActive with
  | true => customViaPoints
  | false =>
    match transformedPlan with
    | [] => []
    | p :: rest => deriveViaPoints minSeparation 0 p rest

/-- The per-axis shrink factor for the translational x-velocity: above
`maxVelX` (forward) or below `-maxVelXBackwards` (backward) the factor
brings it exactly onto the violated bound, otherwise it is 1. -/
noncomputable def scaleX (vx maxVelX maxVelXBackwards : ℝ) : ℝ :=
  if maxVelX < vx then maxVelX / vx
  else if vx < -maxVelXBackwards then -maxVelXBackwards / vx
  else 1

/-- The symmetric shrink factor for a component bounded in absolute
value (strafing velocity against `maxVelY`, angular velocity against
`maxVelTheta`). -/
noncomputable def scaleAbs (w maxW : ℝ) : ℝ :=
  if maxW < |w| then maxW / |w| else 1

/-- The joint shrink factor of the vector-norm clamp of the combined
translational velocity against `maxVelTrans`. -/
noncomputable def scaleTransl (vx vy maxVelTrans : ℝ) : ℝ :=
  if maxVelTrans < Real.sqrt (vx ^ 2 + vy ^ 2) then
    maxVelTrans / Real.sqrt (vx ^ 2 + vy ^ 2)
  else 1

/-- Under proportional saturation all components share the single factor
that brings the worst offender into bounds: the minimum of all shrink
factors. -/
noncomputable def propScale (vx vy omega maxVelX maxVelY maxVelTrans maxVelTheta
    maxVelXBackwards : ℝ) : ℝ :=
  min (min (min (scaleX vx maxVelX maxVelXBackwards) (scaleAbs vy maxVelY))
        (scaleTransl vx vy maxVelTrans))
    (scaleAbs omega maxVelTheta)

/-- Modelled from the spec: `saturateVelocity` (header lines 332-348) and
the `use_proportional_saturation_` flag (line 474: "If true, reduce all
twists components (linear x and y, and angular z) proportionally if any
exceed its corresponding bounds, instead of saturating each one
individually").  The spec adds the vector-norm clamp of the combined
translational velocity against `max_vel_trans` and the distinct backward
bound `max_vel_x_backwards`. -/
noncomputable def saturateVelocity (useProportionalSaturation : Bool)
    (vx vy omega maxVelX maxVelY maxVelTrans maxVelTheta maxVelXBackwards : ℝ) :
    ℝ × ℝ × ℝ :=
  match useProportionalSaturation with
  | true =>
    (propScale vx vy omega maxVelX maxVelY maxVelTrans maxVelTheta maxVelXBackwards * vx,
     propScale vx vy omega maxVelX maxVelY maxVelTrans maxVelTheta maxVelXBackwards * vy,
     propScale vx vy omega maxVelX maxVelY maxVelTrans maxVelTheta maxVelXBackwards * omega)
  | false =>
    (min (scaleX vx maxVelX maxVelXBackwards) (scaleTransl vx vy maxVelTrans) * vx,
     min (scaleAbs vy maxVelY) (scaleTransl vx vy maxVelTrans) * vy,
     scaleAbs omega maxVelTheta * omega)

/-- Saturation of the turning radius against the configured lower bound
(header line 362: "Specify a lower bound on the turning radius"): a
radius smaller in magnitude than `minTurningRadius` is replaced by the
bound with the radius's sign. -/
noncomputable def saturatedRadius (radius minTurningRadius : ℝ) : ℝ :=
  if |radius| < minTurningRadius then
    (if radius < 0 then -minTurningRadius else minTurningRadius)
  else radius

/-- Modelled from the spec: `convertTransRotVelToSteeringAngle` (header
lines 351-365).  "The turning radius is defined by R = v/omega.  For a
car like robot with a distance L between both axles, the relation is:
tan(phi) = L/R.  phi denotes the steering angle. ... Resulting steering
angle in [rad] inbetween [-pi/2, pi/2]", with `min_turning_radius` a
lower bound on the turning radius.  Degenerate inputs (omega = 0, where
no finite turning radius exists, or v = 0) yield steering angle 0. -/
noncomputable def convertTransRotVelToSteeringAngle
    (v omega wheelbase minTurningRadius : ℝ) : ℝ :=
  if omega = 0 ∨ v = 0 then 0
  else Real.arctan (wheelbase / saturatedRadius (v / omega) minTurningRadius)

/-! ## Helper lemmas -/

/-- The x shrink factor is positive for positive limits. -/
theorem scaleX_pos (vx mX mB : ℝ) (hX : 0 < mX) (hB : 0 < mB) :
    0 < scaleX vx mX mB := by
  unfold scaleX
  split_ifs with h1 h2
  · exact div_pos hX (hX.trans h1)
  · exact div_pos_iff.mpr (Or.inr ⟨neg_lt_zero.mpr hB, h2.trans (neg_lt_zero.mpr hB)⟩)
  · exact one_pos

/-- Multiplying by the x shrink factor lands inside the x bounds. -/
theorem scaleX_mul_bounds (vx mX mB : ℝ) (hX : 0 < mX) (hB : 0 < mB) :
    scaleX vx mX mB * vx ≤ mX ∧ -mB ≤ scaleX vx mX mB * vx := by
  unfold scaleX
  split_ifs with h1 h2
  · rw [div_mul_cancel₀ mX (ne_of_gt (hX.trans h1))]
    exact ⟨le_refl mX, by linarith⟩
  · have hvx : vx < 0 := h2.trans (neg_lt_zero.mpr hB)
    rw [div_mul_cancel₀ _ (ne_of_lt hvx)]
    exact ⟨by linarith, le_refl _⟩
  · rw [one_mul]
    exact ⟨le_of_not_lt h1, le_of_not_lt h2⟩

/-- Any positive factor below the x shrink factor also lands inside the
x bounds. -/
theorem scaled_vx_bounds (vx mX mB m : ℝ) (hX : 0 < mX) (hB : 0 < mB)
    (hm : 0 < m) (hle : m ≤ scaleX vx mX mB) :
    m * vx ≤ mX ∧ -mB ≤ m * vx := by
  obtain ⟨hub, hlb⟩ := scaleX_mul_bounds vx mX mB hX hB
  rcases le_or_lt 0 vx with hvx | hvx
  · refine ⟨le_trans (mul_le_mul_of_nonneg_right hle hvx) hub, ?_⟩
    have h0 : 0 ≤ m * vx := mul_nonneg hm.le hvx
    linarith
  · refine ⟨?_, le_trans hlb (mul_le_mul_of_nonpos_right hle hvx.le)⟩
    have h0 : m * vx < 0 := mul_neg_of_pos_of_neg hm hvx
    linarith

/-- The absolute-value shrink factor is positive for a positive limit. -/
theorem scaleAbs_pos (w mW : ℝ) (hW : 0 < mW) : 0 < scaleAbs w mW := by
  unfold scaleAbs
  split_ifs with h1
  · exact div_pos hW (hW.trans h1)
  · exact one_pos

/-- Any nonnegative factor below the absolute-value shrink factor keeps
the component within the symmetric bound. -/
theorem scaled_abs_bound (w mW m : ℝ) (hW : 0 < mW) (hm : 0 ≤ m)
    (hle : m ≤ scaleAbs w mW) : |m * w| ≤ mW := by
  rw [abs_mul, abs_of_nonneg hm]
  unfold scaleAbs at hle
  by_cases h1 : mW < |w|
  · rw [if_pos h1] at hle
    have hw : (0 : ℝ) < |w| := hW.trans h1
    calc m * |w| ≤ mW / |w| * |w| := mul_le_mul_of_nonneg_right hle (abs_nonneg w)
    _ = mW := div_mul_cancel₀ mW (ne_of_gt hw)
  · rw [if_neg h1] at hle
    push_neg at h1
    calc m * |w| ≤ 1 * |w| := mul_le_mul_of_nonneg_right hle (abs_nonneg w)
    _ = |w| := one_mul _
    _ ≤ mW := h1

/-- The translational joint shrink factor is positive for a positive
limit. -/
theorem scaleTransl_pos (vx vy mT : ℝ) (hT : 0 < mT) : 0 < scaleTransl vx vy mT := by
  unfold scaleTransl
  split_ifs with h1
  · exact div_pos hT (hT.trans h1)
  · exact one_pos

/-- Scaling the two translational components by any nonnegative factors
below the joint shrink factor keeps the combined translational norm
within `maxVelTrans`. -/
theorem scaled_transl_bound (vx vy mT a b : ℝ) (hT : 0 < mT)
    (ha : 0 ≤ a) (hat : a ≤ scaleTransl vx vy mT)
    (hb : 0 ≤ b) (hbt : b ≤ scaleTransl vx vy mT) :
    Real.sqrt ((a * vx) ^ 2 + (b * vy) ^ 2) ≤ mT := by
  have hrtpos : 0 < scaleTransl vx vy mT := scaleTransl_pos vx vy mT hT
  have h1 : (a * vx) ^ 2 ≤ scaleTransl vx vy mT ^ 2 * vx ^ 2 := by
    rw [mul_pow]
    exact mul_le_mul_of_nonneg_right (pow_le_pow_left₀ ha hat 2) (sq_nonneg vx)
  have h2 : (b * vy) ^ 2 ≤ scaleTransl vx vy mT ^ 2 * vy ^ 2 := by
    rw [mul_pow]
    exact mul_le_mul_of_nonneg_right (pow_le_pow_left₀ hb hbt 2) (sq_nonneg vy)
  have hstep : Real.sqrt ((a * vx) ^ 2 + (b * vy) ^ 2) ≤
      scaleTransl vx vy mT * Real.sqrt (vx ^ 2 + vy ^ 2) := by
    calc Real.sqrt ((a * vx) ^ 2 + (b * vy) ^ 2)
        ≤ Real.sqrt (scaleTransl vx vy mT ^ 2 * vx ^ 2 + scaleTransl vx vy mT ^ 2 * vy ^ 2) :=
          Real.sqrt_le_sqrt (add_le_add h1 h2)
      _ = Real.sqrt (scaleTransl vx vy mT ^ 2 * (vx ^ 2 + vy ^ 2)) := by rw [mul_add]
      _ = scaleTransl vx vy mT * Real.sqrt (vx ^ 2 + vy ^ 2) := by
          rw [Real.sqrt_mul (sq_nonneg _), Real.sqrt_sq hrtpos.le]
  have hfin : scaleTransl vx vy mT * Real.sqrt (vx ^ 2 + vy ^ 2) ≤ mT := by
    unfold scaleTransl
    by_cases hcl : mT < Real.sqrt (vx ^ 2 + vy ^ 2)
    · rw [if_pos hcl]
      exact le_of_eq (div_mul_cancel₀ mT (ne_of_gt (hT.trans hcl)))
    · rw [if_neg hcl, one_mul]
      exact le_of_not_lt hcl
  exact hstep.trans hfin

/-- The magnitude of the saturated radius is the maximum of the raw
radius magnitude and the lower bound. -/
theorem abs_saturatedRadius (radius mtr : ℝ) (hmtr : 0 ≤ mtr) :
    |saturatedRadius radius mtr| = max |radius| mtr := by
  unfold saturatedRadius
  split_ifs with h1 h2
  · rw [abs_neg, abs_of_nonneg hmtr, max_eq_right h1.le]
  · rw [abs_of_nonneg hmtr, max_eq_right h1.le]
  · rw [max_eq_left (le_of_not_lt h1)]

/-- The arc-tangent commutes with absolute values. -/
theorem abs_arctan (x : ℝ) : |Real.arctan x| = Real.arctan |x| := by
  rcases le_or_lt 0 x with hx | hx
  · have hax : 0 ≤ Real.arctan x := by
      rw [← Real.arctan_zero]
      exact Real.arctan_strictMono.monotone hx
    rw [abs_of_nonneg hx, abs_of_nonneg hax]
  · have hax : Real.arctan x < 0 := by
      rw [← Real.arctan_zero]
      exact Real.arctan_strictMono hx
    rw [abs_of_neg hx, abs_of_neg hax, ← Real.arctan_neg]

/-- Closed form of the absolute steering angle for a nondegenerate
input. -/
theorem abs_convertSteeringAngle (v omega wheelbase mtr : ℝ) (hv : 0 < v)
    (homega : omega ≠ 0) (hmtr : 0 ≤ mtr) :
    |convertTransRotVelToSteeringAngle v omega wheelbase mtr| =
      Real.arctan (|wheelbase| / max (v / |omega|) mtr) := by
  unfold convertTransRotVelToSteeringAngle
  rw [if_neg (by push_neg; exact ⟨homega, ne_of_gt hv⟩), abs_arctan, abs_div,
    abs_saturatedRadius _ mtr hmtr, abs_div, abs_of_pos hv]

/-- Translating both endpoints leaves the distance unchanged. -/
theorem planDist_shift (off p q : RPt) :
    planDist (shiftPt off p) (shiftPt off q) = planDist p q := by
  simp only [planDist, shiftPt]
  congr 1
  ring

/-- Translating a polyline leaves its cumulative length unchanged. -/
theorem cumLength_map_shift (off : RPt) :
    ∀ l : List RPt, cumLength (l.map (shiftPt off)) = cumLength l := by
  intro l
  induction l with
  | nil => rfl
  | cons p tl ih =>
    cases tl with
    | nil => rfl
    | cons q rest =>
      have h₁ : cumLength ((p :: q :: rest).map (shiftPt off)) =
          planDist (shiftPt off p) (shiftPt off q) +
            cumLength ((q :: rest).map (shiftPt off)) := rfl
      rw [h₁, ih, planDist_shift, cumLength]

/-- Core bound for the truncation loop: starting from an already-spent
budget `acc ≤ maxLen`, the kept tail never pushes the total past
`maxLen`. -/
theorem takeWithin_bound (maxLen : ℝ) :
    ∀ (rest : List RPt) (acc : ℝ) (prev : RPt), acc ≤ maxLen →
      acc + cumLength (prev :: takeWithin maxLen acc prev rest) ≤ maxLen := by
  intro rest
  induction rest with
  | nil =>
    intro acc prev h
    simpa [takeWithin, cumLength] using h
  | cons q rest ih =>
    intro acc prev h
    by_cases hc : acc + planDist prev q ≤ maxLen
    · have hrec := ih (acc + planDist prev q) q hc
      simp only [takeWithin, if_pos hc, cumLength]
      linarith
    · simp only [takeWithin, if_neg hc, cumLength]
      simpa using h

/-- The via-point derivation walks the plan tail in order: its output is
an order-preserving selection (sublist) of the tail. -/
theorem deriveViaPoints_sublist (minSeparation : ℝ) :
    ∀ (rest : List RPt) (acc : ℝ) (prev : RPt),
      List.Sublist (deriveViaPoints minSeparation acc prev rest) rest := by
  intro rest
  induction rest with
  | nil => intro acc prev; simp [deriveViaPoints]
  | cons q rest ih =>
    intro acc prev
    by_cases hc : minSeparation ≤ acc + planDist prev q
    · simp only [deriveViaPoints, if_pos hc]
      exact List.Sublist.cons₂ q (ih 0 q)
    · simp only [deriveViaPoints, if_neg hc]
      exact List.Sublist.cons q (ih (acc + planDist prev q) q)

/-- The head of a nonempty `dropWhile` result falsifies the predicate. -/
theorem dropWhile_head_false {α : Type} (p : α → Bool) :
    ∀ (l : List α) (x : α) (xs : List α), l.dropWhile p = x :: xs → p x = false := by
  intro l
  induction l with
  | nil => intro x xs h; simp [List.dropWhile] at h
  | cons a tl ih =>
    intro x xs h
    by_cases hpa : p a = true
    · rw [List.dropWhile_cons_of_pos hpa] at h
      exact ih x xs h
    · rw [List.dropWhile_cons_of_neg hpa] at h
      cases h
      exact Bool.not_eq_true _ |>.mp hpa

/-! ## Claim theorems (computable part) -/

/-- C1: For every input twist `(vx, vy, omega)` and all positive velocity
limits, the output of `saturateVelocity` never exceeds the configured
bounds on any axis (`max_vel_x` / `max_vel_x_backwards` for vx,
`max_vel_y` for vy, `max_vel_theta` for omega, `max_vel_trans` for the
combined translational norm); and when proportional saturation is
enabled all components are scaled by one common positive factor, so the
normalized direction vector of the output equals that of the input (a
positive scalar multiple of the input). -/
theorem saturateVelocity_spec (useProportionalSaturation : Bool)
    (vx vy omega mX mY mT mTheta mB : ℝ) (out : ℝ × ℝ × ℝ)
    (hout : out = saturateVelocity useProportionalSaturation vx vy omega mX mY mT mTheta mB)
    (hX : 0 < mX) (hY : 0 < mY) (hT : 0 < mT) (hTheta : 0 < mTheta) (hB : 0 < mB) :
    (out.1 ≤ mX ∧ -mB ≤ out.1)
    ∧ |out.2.1| ≤ mY
    ∧ |out.2.2| ≤ mTheta
    ∧ Real.sqrt (out.1 ^ 2 + out.2.1 ^ 2) ≤ mT
    ∧ (useProportionalSaturation = true →
        ∃ c : ℝ, 0 < c ∧ out = (c * vx, c * vy, c * omega)) := by
  subst hout
  have hrx := scaleX_pos vx mX mB hX hB
  have hry := scaleAbs_pos vy mY hY
  have hrth := scaleAbs_pos omega mTheta hTheta
  have hrt := scaleTransl_pos vx vy mT hT
  cases useProportionalSaturation with
  | false =>
    refine ⟨?_, ?_, ?_, ?_, ?_⟩
    · exact scaled_vx_bounds vx mX mB _ hX hB (lt_min hrx hrt) (min_le_left _ _)
    · exact scaled_abs_bound vy mY _ hY (lt_min hry hrt).le (min_le_left _ _)
    · exact scaled_abs_bound omega mTheta _ hTheta hrth.le (le_refl _)
    · exact scaled_transl_bound vx vy mT _ _ hT (lt_min hrx hrt).le (min_le_right _ _)
        (lt_min hry hrt).le (min_le_right _ _)
    · intro h; cases h
  | true =>
    have hppos : 0 < propScale vx vy omega mX mY mT mTheta mB :=
      lt_min (lt_min (lt_min hrx hry) hrt) hrth
    have hpx : propScale vx vy omega mX mY mT mTheta mB ≤ scaleX vx mX mB :=
      le_trans (min_le_left _ _) (le_trans (min_le_left _ _) (min_le_left _ _))
    have hpy : propScale vx vy omega mX mY mT mTheta mB ≤ scaleAbs vy mY :=
      le_trans (min_le_left _ _) (le_trans (min_le_left _ _) (min_le_right _ _))
    have hpt : propScale vx vy omega mX mY mT mTheta mB ≤ scaleTransl vx vy mT :=
      le_trans (min_le_left _ _) (min_le_right _ _)
    have hpth : propScale vx vy omega mX mY mT mTheta mB ≤ scaleAbs omega mTheta :=
      min_le_right _ _
    refine ⟨?_, ?_, ?_, ?_, ?_⟩
    · exact scaled_vx_bounds vx mX mB _ hX hB hppos hpx
    · exact scaled_abs_bound vy mY _ hY hppos.le hpy
    · exact scaled_abs_bound omega mTheta _ hTheta hppos.le hpth
    · exact scaled_transl_bound vx vy mT _ _ hT hppos.le hpt hppos.le hpt
    · intro _
      exact ⟨propScale vx vy omega mX mY mT mTheta mB, hppos, rfl⟩

/-- Witness for C1 at a concrete input: proportional mode, twist
(2, 0, 0), all limits 1. -/
theorem saturateVelocity_spec_witness :
    ((saturateVelocity true 2 0 0 1 1 1 1 1).1 ≤ 1
      ∧ -1 ≤ (saturateVelocity true 2 0 0 1 1 1 1 1).1)
    ∧ |(saturateVelocity true 2 0 0 1 1 1 1 1).2.1| ≤ 1
    ∧ |(saturateVelocity true 2 0 0 1 1 1 1 1).2.2| ≤ 1
    ∧ Real.sqrt ((saturateVelocity true 2 0 0 1 1 1 1 1).1 ^ 2 +
        (saturateVelocity true 2 0 0 1 1 1 1 1).2.1 ^ 2) ≤ 1
    ∧ (true = true → ∃ c : ℝ, 0 < c ∧
        saturateVelocity true 2 0 0 1 1 1 1 1 = (c * 2, c * 0, c * 0)) :=
  saturateVelocity_spec true 2 0 0 1 1 1 1 1 _ rfl one_pos one_pos one_pos one_pos one_pos

/-- C2: For every global plan and robot pose, `pruneGlobalPlan` either
succeeds (returns true) with the returned plan's first pose lying within
`dist_behind_robot` of the robot, or — when the robot-pose transform
fails, or no pose of the plan lies within `dist_behind_robot` — returns
false and leaves the global plan completely unmodified (no pose
removed).  Conjuncts: transform failure returns `(false, plan)`; no pose
within the threshold returns `(false, plan)`; whenever the result is
false the plan is unmodified; whenever the result is true the returned
plan's first pose is within the threshold; and if some pose is within
the threshold (and the transform succeeded) the result is true. -/
theorem pruneGlobalPlan_spec (robotPose : Option QPt) (globalPlan : List QPt)
    (distBehindRobot : ℚ) :
    (robotPose = none →
      pruneGlobalPlan robotPose globalPlan distBehindRobot = (false, globalPlan))
    ∧ (∀ r, robotPose = some r →
        (∀ p ∈ globalPlan, distBehindRobot ^ 2 ≤ distSq p r) →
        pruneGlobalPlan robotPose globalPlan distBehindRobot = (false, globalPlan))
    ∧ ((pruneGlobalPlan robotPose globalPlan distBehindRobot).1 = false →
      (pruneGlobalPlan robotPose globalPlan distBehindRobot).2 = globalPlan)
    ∧ (∀ r, robotPose = some r →
        (pruneGlobalPlan robotPose globalPlan distBehindRobot).1 = true →
        ∃ p rest, (pruneGlobalPlan robotPose globalPlan distBehindRobot).2 = p :: rest ∧
          distSq p r ≤ distBehindRobot ^ 2)
    ∧ (∀ r, robotPose = some r → ∀ p ∈ globalPlan, distSq p r < distBehindRobot ^ 2 →
        (pruneGlobalPlan robotPose globalPlan distBehindRobot).1 = true) := by
  refine ⟨?_, ?_, ?_, ?_, ?_⟩
  · intro hrp
    subst hrp
    rfl
  · intro r hrp hfar
    subst hrp
    have hnil : globalPlan.dropWhile (fun p => decide (distBehindRobot ^ 2 ≤ distSq p r)) = [] :=
      List.dropWhile_eq_nil_iff.mpr (by
        intro p hp
        simpa using hfar p hp)
    simp only [pruneGlobalPlan, hnil]
    rfl
  · intro hfail
    match hrp : robotPose with
    | none => simp [pruneGlobalPlan]
    | some r =>
      simp only [pruneGlobalPlan, hrp] at hfail ⊢
      by_cases hemp :
          (globalPlan.dropWhile (fun p => decide (distBehindRobot ^ 2 ≤ distSq p r))).isEmpty
      · rw [if_pos hemp]
      · rw [if_neg hemp] at hfail
        simp at hfail
  · intro r hrp hok
    subst hrp
    simp only [pruneGlobalPlan] at hok ⊢
    by_cases hemp :
        (globalPlan.dropWhile (fun p => decide (distBehindRobot ^ 2 ≤ distSq p r))).isEmpty
    · rw [if_pos hemp] at hok; simp at hok
    · rw [if_neg hemp] at hok ⊢
      match hdw : globalPlan.dropWhile (fun p => decide (distBehindRobot ^ 2 ≤ distSq p r)) with
      | [] => rw [hdw] at hemp; simp at hemp
      | p :: rest =>
        refine ⟨p, rest, by simp [hdw], ?_⟩
        have hfalse := dropWhile_head_false _ globalPlan p rest hdw
        simp only [decide_eq_false_iff_not, not_le] at hfalse
        exact le_of_lt hfalse
  · intro r hrp p hp hnear
    subst hrp
    have hne : globalPlan.dropWhile (fun q => decide (distBehindRobot ^ 2 ≤ distSq q r)) ≠ [] := by
      intro hnil
      have := List.dropWhile_eq_nil_iff.mp hnil p hp
      simp only [decide_eq_true_eq] at this
      exact absurd this (not_le.mpr hnear)
    simp only [pruneGlobalPlan]
    rw [if_neg (by simpa [List.isEmpty_iff] using hne)]

/-- Witness for C2 at a concrete input: robot at the origin, a two-pose
plan whose first pose is far and whose second pose is at the origin,
threshold 1; pruning succeeds and the returned head is within the
threshold. -/
theorem pruneGlobalPlan_spec_witness :
    ∃ p rest,
      (pruneGlobalPlan (some ((0 : ℚ), (0 : ℚ))) [((5 : ℚ), (0 : ℚ)), ((0 : ℚ), (0 : ℚ))] 1).2 =
        p :: rest ∧ distSq p ((0 : ℚ), (0 : ℚ)) ≤ (1 : ℚ) ^ 2 :=
  (pruneGlobalPlan_spec (some ((0 : ℚ), (0 : ℚ)))
      [((5 : ℚ), (0 : ℚ)), ((0 : ℚ), (0 : ℚ))] 1).2.2.2.1
    ((0 : ℚ), (0 : ℚ)) rfl (by norm_num [pruneGlobalPlan, distSq, List.dropWhile_cons])

/-- C3: After `clearOldObstacles` runs, every obstacle remaining in the
container has age at most the configured maximum
(`max_time_for_evanescent_obstacles_`), and obstacles older than the
maximum are removed from the container, not merely flagged. -/
theorem clearOldObstacles_spec (now maxAge : ℚ) (obstacles : List TimedObstacle) :
    (∀ ob ∈ clearOldObstacles now maxAge obstacles, obstacleAge now ob ≤ maxAge)
    ∧ (∀ ob ∈ obstacles, maxAge < obstacleAge now ob →
        ob ∉ clearOldObstacles now maxAge obstacles) := by
  constructor
  · intro ob hob
    have := List.of_mem_filter hob
    simpa using this
  · intro ob _ hold hmem
    have := List.of_mem_filter hmem
    simp only [decide_eq_true_eq] at this
    exact absurd this (not_le.mpr hold)

/-- Witness for C3 at a concrete input: one fresh obstacle survives the
sweep and indeed has age within the bound. -/
theorem clearOldObstacles_spec_witness :
    obstacleAge 1 ⟨0, 0, 0⟩ ≤ (1 : ℚ) :=
  (clearOldObstacles_spec 1 1 [⟨0, 0, 0⟩]).1 ⟨0, 0, 0⟩
    (by norm_num [clearOldObstacles, obstacleAge, List.filter_cons])

/-- C4: For every global plan and robot pose, the transformed local plan
window returned by `transformGlobalPlan` has cumulative Euclidean length
at most `max_plan_length` whenever `max_plan_length` is positive; values
of `max_plan_length` ≤ 0 disable the length cap entirely (the whole plan
is reprojected). -/
theorem transformGlobalPlan_spec (off : RPt) (maxPlanLength : ℝ) (globalPlan : List RPt) :
    (0 < maxPlanLength →
      cumLength (transformGlobalPlan off maxPlanLength globalPlan) ≤ maxPlanLength)
    ∧ (maxPlanLength ≤ 0 →
      transformGlobalPlan off maxPlanLength globalPlan = globalPlan.map (shiftPt off)) := by
  constructor
  · intro hpos
    cases globalPlan with
    | nil =>
      simp only [transformGlobalPlan, cumLength]
      exact le_of_lt hpos
    | cons p rest =>
      simp only [transformGlobalPlan, if_neg (not_le.mpr hpos)]
      rw [cumLength_map_shift]
      have := takeWithin_bound maxPlanLength rest 0 p (le_of_lt hpos)
      linarith
  · intro hneg
    cases globalPlan with
    | nil => rfl
    | cons p rest => simp only [transformGlobalPlan, if_pos hneg]

/-- Witness for C4 at a concrete input: a two-pose plan 5 long, cap 1. -/
theorem transformGlobalPlan_spec_witness :
    cumLength (transformGlobalPlan ((0 : ℝ), (0 : ℝ)) 1
      [((0 : ℝ), (0 : ℝ)), ((5 : ℝ), (0 : ℝ))]) ≤ 1 :=
  (transformGlobalPlan_spec ((0 : ℝ), (0 : ℝ)) 1
    [((0 : ℝ), (0 : ℝ)), ((5 : ℝ), (0 : ℝ))]).1 one_pos

/-- C5: `convertTransRotVelToSteeringAngle` always returns a value in
[-π/2, π/2]; for every v > 0, an input omega = 0 yields steering angle 0;
and for fixed v > 0 and wheelbase (and a nonnegative minimum turning
radius), the absolute steering angle is monotonically non-decreasing in
the magnitude of omega, up to the π/2 bound. -/
theorem convertTransRotVelToSteeringAngle_spec (v wheelbase minTurningRadius : ℝ)
    (hv : 0 < v) (hmtr : 0 ≤ minTurningRadius) :
    (∀ v₀ omega₀ wheelbase₀ mtr₀ : ℝ,
        -(Real.pi / 2) ≤ convertTransRotVelToSteeringAngle v₀ omega₀ wheelbase₀ mtr₀ ∧
          convertTransRotVelToSteeringAngle v₀ omega₀ wheelbase₀ mtr₀ ≤ Real.pi / 2)
    ∧ convertTransRotVelToSteeringAngle v 0 wheelbase minTurningRadius = 0
    ∧ ∀ omega₁ omega₂ : ℝ, |omega₁| ≤ |omega₂| →
        |convertTransRotVelToSteeringAngle v omega₁ wheelbase minTurningRadius| ≤
          |convertTransRotVelToSteeringAngle v omega₂ wheelbase minTurningRadius| := by
  refine ⟨?_, ?_, ?_⟩
  · intro v₀ omega₀ wheelbase₀ mtr₀
    unfold convertTransRotVelToSteeringAngle
    split_ifs with h
    · constructor
      · linarith [Real.pi_div_two_pos]
      · linarith [Real.pi_div_two_pos]
    · exact ⟨(Real.neg_pi_div_two_lt_arctan _).le, (Real.arctan_lt_pi_div_two _).le⟩
  · simp [convertTransRotVelToSteeringAngle]
  · intro omega₁ omega₂ hle
    by_cases h2 : omega₂ = 0
    · subst h2
      have h1 : omega₁ = 0 := by
        have habs : |omega₁| = 0 := le_antisymm (by simpa using hle) (abs_nonneg omega₁)
        exact abs_eq_zero.mp habs
      subst h1
      exact le_refl _
    · by_cases h1 : omega₁ = 0
      · subst h1
        have hzero : convertTransRotVelToSteeringAngle v 0 wheelbase minTurningRadius = 0 := by
          simp [convertTransRotVelToSteeringAngle]
        rw [hzero, abs_zero]
        exact abs_nonneg _
      · rw [abs_convertSteeringAngle v omega₁ wheelbase minTurningRadius hv h1 hmtr,
          abs_convertSteeringAngle v omega₂ wheelbase minTurningRadius hv h2 hmtr]
        have ho1 : 0 < |omega₁| := abs_pos.mpr h1
        have ho2 : 0 < |omega₂| := abs_pos.mpr h2
        have hdiv : v / |omega₂| ≤ v / |omega₁| := by gcongr
        have hmax : max (v / |omega₂|) minTurningRadius ≤
            max (v / |omega₁|) minTurningRadius := max_le_max hdiv (le_refl _)
        have hmaxpos : 0 < max (v / |omega₂|) minTurningRadius :=
          lt_of_lt_of_le (div_pos hv ho2) (le_max_left _ _)
        have hdiv2 : |wheelbase| / max (v / |omega₁|) minTurningRadius ≤
            |wheelbase| / max (v / |omega₂|) minTurningRadius := by gcongr
        exact Real.arctan_strictMono.monotone hdiv2

/-- Witness for C5 at a concrete input: v = 1, wheelbase = 1, minimum
turning radius 0, omega = 0. -/
theorem convertTransRotVelToSteeringAngle_spec_witness :
    convertTransRotVelToSteeringAngle 1 0 1 0 = 0 :=
  (convertTransRotVelToSteeringAngle_spec 1 1 0 one_pos (le_refl 0)).2.1

/-- C7: `updateViaPointsContainer` first clears all previously stored
via-points (its result does not depend on them), walks the transformed
plan in order (the derived via-points are an order-preserving selection
of the plan, emitted each time the accumulated distance since the last
emitted point reaches `min_separation` — the definition of
`deriveViaPoints`), and whenever the external feed is marked active its
content is used verbatim and no via-points are derived from the plan. -/
theorem updateViaPointsContainer_spec (customViaPointsActive : Bool)
    (customViaPoints transformedPlan : List RPt) (minSeparation : ℝ)
    (previousViaPoints : List RPt) :
    updateViaPointsContainer true customViaPoints transformedPlan minSeparation
        previousViaPoints = customViaPoints
    ∧ (∀ previous' : List RPt,
        updateViaPointsContainer customViaPointsActive customViaPoints transformedPlan
            minSeparation previousViaPoints =
          updateViaPointsContainer customViaPointsActive customViaPoints transformedPlan
            minSeparation previous')
    ∧ (customViaPointsActive = false →
        List.Sublist
          (updateViaPointsContainer customViaPointsActive customViaPoints transformedPlan
            minSeparation previousViaPoints)
          transformedPlan) := by
  refine ⟨rfl, fun _ => rfl, ?_⟩
  intro hfalse
  subst hfalse
  cases transformedPlan with
  | nil => exact List.nil_sublist _
  | cons p rest =>
    exact List.Sublist.cons p (deriveViaPoints_sublist minSeparation rest 0 p)

/-- Witness for C7 at a concrete input: inactive custom feed, a one-pose
plan. -/
theorem updateViaPointsContainer_spec_witness :
    List.Sublist
      (updateViaPointsContainer false [] [((0 : ℝ), (0 : ℝ))] 1 [])
      [((0 : ℝ), (0 : ℝ))] :=
  (updateViaPointsContainer_spec false [] [((0 : ℝ), (0 : ℝ))] 1 []).2.2 rfl

/-- C6: The costmap update clears all previously stored obstacles first
(its result does not depend on the previous container at all) and every
occupied cell within range becomes a point obstacle; the custom-feed
update appends to the existing set without clearing, so every obstacle
already in the container is still there, in place, as a prefix of the
result. -/
theorem obstacleContainer_update_spec (cells : List GridCell) (robot : QPt)
    (range now : ℚ) (obstacles customObstacles : List TimedObstacle) :
    (∀ previous : List TimedObstacle,
        updateObstacleContainerWithCostmap cells robot range now previous =
          updateObstacleContainerWithCostmap cells robot range now [])
    ∧ (∀ c ∈ cells, c.occupied = true → distSq (c.x, c.y) robot ≤ range ^ 2 →
        (⟨c.x, c.y, now⟩ : TimedObstacle) ∈
          updateObstacleContainerWithCostmap cells robot range now obstacles)
    ∧ updateObstacleContainerWithCustomObstacles customObstacles obstacles =
        obstacles ++ customObstacles
    ∧ ∀ ob ∈ obstacles, ob ∈ updateObstacleContainerWithCustomObstacles customObstacles obstacles := by
  refine ⟨fun _ => rfl, ?_, rfl, ?_⟩
  · intro c hc hocc hrange
    simp only [updateObstacleContainerWithCostmap, List.nil_append]
    exact List.mem_map.mpr ⟨c, List.mem_filter.mpr ⟨hc, by simp [hocc, hrange]⟩, rfl⟩
  · intro ob hob
    exact List.mem_append.mpr (Or.inl hob)

/-- Witness for C6 at a concrete input: a single occupied cell at the
origin lands in the container as a point obstacle. -/
theorem obstacleContainer_update_spec_witness :
    (⟨0, 0, 5⟩ : TimedObstacle) ∈
      updateObstacleContainerWithCostmap [⟨0, 0, true⟩] ((0 : ℚ), (0 : ℚ)) 1 5 [] :=
  (obstacleContainer_update_spec [⟨0, 0, true⟩] ((0 : ℚ), (0 : ℚ)) 1 5 [] []).2.1
    ⟨0, 0, true⟩ (List.mem_singleton.mpr rfl) rfl (by norm_num [distSq])

/-- C8: Calling the extended `computeVelocityCommands` before the server
is initialized returns the dedicated `NOT_INITIALIZED` outcome, whose
code is 112, and every return value of the operation is drawn from the
fixed MBF code space. -/
theorem computeVelocityCommandsMbf_spec :
    (∀ cycleOutcome : MbfOutcome,
        computeVelocityCommandsMbf false cycleOutcome = .notInitialized ∧
        (computeVelocityCommandsMbf false cycleOutcome).code = 112)
    ∧ ∀ (initialized : Bool) (cycleOutcome : MbfOutcome),
        (computeVelocityCommandsMbf initialized cycleOutcome).code ∈ mbfCodeSpace := by
  refine ⟨fun _ => ⟨rfl, rfl⟩, ?_⟩
  intro initialized cycleOutcome
  cases initialized <;> cases cycleOutcome <;> decide

/-- C9: The MBF-API `cancel` always returns false, for every server
state, and changes no server state. -/
theorem cancel_spec (s : ServerState) :
    (cancel s).1 = false ∧ (cancel s).2 = s :=
  ⟨rfl, rfl⟩

/-- C10: The two-argument `isGoalReached` ignores both tolerance
arguments entirely: for every pair of tolerance values it returns exactly
the result of the zero-argument `isGoalReached`, which only reads the
stored `goal_reached_` flag. -/
theorem isGoalReachedWithTolerance_spec (s : ServerState) (t₁ t₂ t₁' t₂' : ℝ) :
    isGoalReachedWithTolerance s t₁ t₂ = isGoalReached s
    ∧ isGoalReachedWithTolerance s t₁ t₂ = isGoalReachedWithTolerance s t₁' t₂'
    ∧ isGoalReached s = s.goalReached :=
  ⟨rfl, rfl, rfl⟩
